import Mathlib

/-!
Verification of the Substrate runtime-interface marshaling layer
(`core/runtime-interface/src/impls.rs`).

The embedding models machine integers as `Nat` bit patterns (a `u32` is a
`Nat` below `2 ^ 32`, a `u64` a `Nat` below `2 ^ 64`; signed values are
represented by their two's-complement bit pattern).  Host byte order is an
explicit parameter, so the `to_le`/`from_le` normalizations of the source
are modelled faithfully on both little- and big-endian hosts.  The host-side
memory-access context (`wasm_interface::FunctionContext`) is modelled as a
record of fallible state-passing operations.
-/

/-- Host byte order. -/
inductive Endian
  | little
  | big
deriving DecidableEq

/-- Little-endian byte decomposition of `x` into `n` bytes (low byte first). -/
def toBytesLE : Nat → Nat → List Nat
  | 0, _ => []
  | n + 1, x => (x % 256) :: toBytesLE n (x / 256)

/-- Recompose a little-endian byte list into a natural number. -/
def fromBytesLE : List Nat → Nat
  | [] => 0
  | b :: bs => b + 256 * fromBytesLE bs

/-- Byte reversal of an `n`-byte value: what the Rust `to_le`/`from_le`
intrinsics perform on a big-endian host. -/
def byteswap (n x : Nat) : Nat := fromBytesLE (List.reverse (toBytesLE n x))

/-- Rust `uN::to_le` on a host of byte order `e`, for an `n`-byte integer:
identity on little-endian hosts, byte swap on big-endian hosts. -/
def to_le (e : Endian) (n x : Nat) : Nat :=
  match e with
  | .little => x
  | .big => byteswap n x

/-- Rust `uN::from_le` on a host of byte order `e`, for an `n`-byte integer. -/
def from_le (e : Endian) (n x : Nat) : Nat :=
  match e with
  | .little => x
  | .big => byteswap n x

/-- `pointer_and_len_to_u64` (impls.rs:44-46):
`((len as u64) | u64::from(ptr) << 32).to_le()`. -/
def pointer_and_len_to_u64 (e : Endian) (ptr len : Nat) : Nat :=
  to_le e 8 (len ||| ptr <<< 32)

/-- `pointer_and_len_from_u64` (impls.rs:49-55): `let val = u64::from_le(val);`
then `len = (val & (!0u32 as u64)) as u32` and `ptr = (val >> 32) as u32`. -/
def pointer_and_len_from_u64 (e : Endian) (val : Nat) : Nat × Nat :=
  let v := from_le e 8 val
  let len := v &&& (2 ^ 32 - 1)
  let ptr := (v >>> 32) % 2 ^ 32
  (ptr, len)

/-- Modelled from the spec (§3, Handle): the packed handle as the spec words
it, `handle = length | (address << 32)` with the fields in disjoint 32-bit
halves, i.e. numerically `length + address * 2^32`, the word then normalized
to little-endian. -/
def handle_layout_spec (e : Endian) (ptr len : Nat) : Nat :=
  to_le e 8 (len + ptr * 2 ^ 32)

/-- Modelled from the spec (§3, Handle): decoding de-normalizes the word from
little-endian, then the length is the low 32 bits and the address the high
32 bits of the result. -/
def handle_unpack_spec (e : Endian) (val : Nat) : Nat × Nat :=
  (from_le e 8 val / 2 ^ 32, from_le e 8 val % 2 ^ 32)

/-- The wire primitives: the `RIType::FFIType` kinds that may cross the call
boundary.  Also used to name the native integer types themselves, since the
`impl_traits_for_primitives!` invocation maps each native integer type to a
wire primitive of the same name. -/
inductive WireTy
  | u8
  | u16
  | u32
  | u64
  | i8
  | i16
  | i32
  | i64
deriving DecidableEq

/-- Bit width of a wire primitive. -/
def WireTy.width : WireTy → Nat
  | .u8 => 8
  | .u16 => 16
  | .u32 => 32
  | .u64 => 64
  | .i8 => 8
  | .i16 => 16
  | .i32 => 32
  | .i64 => 64

/-- Signedness of a wire primitive. -/
def WireTy.signed : WireTy → Bool
  | .u8 => false
  | .u16 => false
  | .u32 => false
  | .u64 => false
  | .i8 => true
  | .i16 => true
  | .i32 => true
  | .i64 => true

/-- The `RIType::FFIType` association declared by the
`impl_traits_for_primitives!` invocation (impls.rs:104-113), pair by pair. -/
def primFFIType : WireTy → WireTy
  | .u8 => .u8
  | .u16 => .u16
  | .u32 => .u32
  | .u64 => .u64
  | .i8 => .i8
  | .i16 => .i16
  | .i32 => .i32
  | .i64 => .i64

/-- `impl RIType for bool { type FFIType = u8; }` (impls.rs:115-117). -/
def boolFFIType : WireTy := .u8

/-- `impl<T> RIType for Vec<T> { type FFIType = u64; }` (impls.rs:151-153). -/
def vecFFIType : WireTy := .u64

/-- `impl<T> RIType for [T] { type FFIType = u64; }` (impls.rs:180-182). -/
def sliceFFIType : WireTy := .u64

/-- `impl RIType for [u8; N] { type FFIType = u32; }` from
`impl_traits_for_arrays!` (impls.rs:281-283), instantiated at `N = 1..=64`. -/
def arrayFFIType (_n : Nat) : WireTy := .u32

/-- The injected host-side memory-access context
(`wasm_interface::FunctionContext`): allocate, write and read in guest
memory, each fallible, threading an abstract memory state `σ`. -/
structure FunctionContext (σ : Type) where
  allocate_memory : σ → Nat → Except String (σ × Nat)
  write_memory : σ → Nat → List Nat → Except String σ
  read_memory : σ → Nat → Nat → Except String (List Nat)

/-- Guest-side `IntoFFIValue` for an integer type (impls.rs:70-76):
`(*self as $fty).to_le()`.  The `as` cast is the identity since each native
type is paired with the same-width wire type; `x` is the value's bit
pattern. -/
def into_ffi_value_prim (e : Endian) (t : WireTy) (x : Nat) : Nat :=
  to_le e (t.width / 8) x

/-- Guest-side `FromFFIValue` for an integer type (impls.rs:79-83):
`<$fty>::from_le(arg) as $rty`. -/
def from_ffi_value_prim (e : Endian) (t : WireTy) (arg : Nat) : Nat :=
  from_le e (t.width / 8) arg

/-- Host-side `IntoFFIValue` for an integer type (impls.rs:95-99): the
`FunctionContext` argument is ignored and the result is always `Ok`. -/
def host_into_ffi_value_prim {σ : Type} (e : Endian) (t : WireTy)
    (_ctx : FunctionContext σ) (_s : σ) (x : Nat) : Except String Nat :=
  .ok (to_le e (t.width / 8) x)

/-- Host-side `FromFFIValue` for an integer type (impls.rs:86-92). -/
def host_from_ffi_value_prim {σ : Type} (e : Endian) (t : WireTy)
    (_ctx : FunctionContext σ) (_s : σ) (arg : Nat) : Except String Nat :=
  .ok (from_le e (t.width / 8) arg)

/-- Guest-side `IntoFFIValue for bool` (impls.rs:120-126):
`if *self { 1 } else { 0 }`. -/
def bool_into_ffi_value (b : Bool) : Nat := if b then 1 else 0

/-- Guest-side `FromFFIValue for bool` (impls.rs:129-133): `arg == 1`. -/
def bool_from_ffi_value (arg : Nat) : Bool := arg == 1

/-- Host-side `IntoFFIValue for bool` (impls.rs:145-149): context ignored,
always `Ok`. -/
def host_bool_into_ffi_value {σ : Type} (_ctx : FunctionContext σ) (_s : σ)
    (b : Bool) : Except String Nat :=
  .ok (if b then 1 else 0)

/-- Host-side `FromFFIValue for bool` (impls.rs:136-142). -/
def host_bool_from_ffi_value {σ : Type} (_ctx : FunctionContext σ) (_s : σ)
    (arg : Nat) : Except String Bool :=
  .ok (arg == 1)

/-- Compile-time data about a sequence element type `α`: `isU8` models the
`TypeId::of::<T>() == TypeId::of::<u8>()` test; `toByte`/`ofByte` model the
`mem::transmute` reinterpretations used on the single-byte fast path (both
are the identity for the real `u8`); `encode`/`decode` are the external
codec (`parity-scale-codec`), kept abstract. -/
structure ElemType (α : Type) where
  isU8 : Bool
  toByte : α → Nat
  ofByte : Nat → α
  encode : List α → List Nat
  decode : List Nat → Option (List α)

/-- Host-side `IntoFFIValue for Vec<T>` (impls.rs:156-168): build the byte
payload (borrowed bytes on the `u8` fast path, `self.encode()` otherwise),
allocate `vec.len() as u32` bytes, write them, pack pointer and length. -/
def vec_into_ffi_value {α σ : Type} (e : Endian) (E : ElemType α)
    (ctx : FunctionContext σ) (s : σ) (v : List α) : Except String (σ × Nat) :=
  let vec : List Nat := if E.isU8 then v.map E.toByte else E.encode v
  match ctx.allocate_memory s (vec.length % 2 ^ 32) with
  | .error msg => .error msg
  | .ok (s1, ptr) =>
    match ctx.write_memory s1 ptr vec with
    | .error msg => .error msg
    | .ok s2 => .ok (s2, pointer_and_len_to_u64 e ptr (vec.length % 2 ^ 32))

/-- Host-side `FromFFIValue for [T]` (impls.rs:185-199): unpack the handle,
read `len` bytes, then transmute on the `u8` fast path or decode through the
codec (where decode failure is the `expect` panic). -/
def slice_from_ffi_value {α σ : Type} (e : Endian) (E : ElemType α)
    (ctx : FunctionContext σ) (s : σ) (arg : Nat) : Except String (List α) :=
  let pl := pointer_and_len_from_u64 e arg
  match ctx.read_memory s pl.1 pl.2 with
  | .error msg => .error msg
  | .ok vec =>
    if E.isU8 then .ok (vec.map E.ofByte)
    else
      match E.decode vec with
      | some res => .ok res
      | none => .error "Wasm to host values are encoded correctly; qed"

/-- Host-side `FromFFIValue for Vec<T>` (impls.rs:172-178): delegates to the
`[T]` implementation. -/
def vec_from_ffi_value {α σ : Type} (e : Endian) (E : ElemType α)
    (ctx : FunctionContext σ) (s : σ) (arg : Nat) : Except String (List α) :=
  slice_from_ffi_value e E ctx s arg

/-- The capacity error message of `IntoPreallocatedFFIValue for [u8]`
(impls.rs:214-219). -/
def prealloc_error_msg (g needed : Nat) : String :=
  "Preallocated buffer is not big enough (given " ++ toString g ++
    " vs needed " ++ toString needed ++ ")!"

/-- Host-side `IntoPreallocatedFFIValue for [u8]` (impls.rs:202-224): unpack
the destination handle, fail if its length field is smaller than the value,
else write the value at the destination address. -/
def u8_slice_into_preallocated_ffi_value {σ : Type} (e : Endian)
    (ctx : FunctionContext σ) (s : σ) (self_instance : List Nat)
    (allocated : Nat) : Except String σ :=
  let pl := pointer_and_len_from_u64 e allocated
  if pl.2 < self_instance.length then
    .error (prealloc_error_msg pl.2 self_instance.length)
  else
    ctx.write_memory s pl.1 self_instance

/-- Host-side `IntoFFIValue for [u8; N]` (impls.rs:320-326): allocate `N`
bytes, write the array, return the address. -/
def array_into_ffi_value {σ : Type} (n : Nat) (ctx : FunctionContext σ)
    (s : σ) (arr : List Nat) : Except String (σ × Nat) :=
  match ctx.allocate_memory s n with
  | .error msg => .error msg
  | .ok (s1, addr) =>
    match ctx.write_memory s1 addr arr with
    | .error msg => .error msg
    | .ok s2 => .ok (s2, addr)

/-- Host-side `FromFFIValue for [u8; N]` (impls.rs:308-317): read `N` bytes
at the address, `copy_from_slice` them into a zero-initialized array (the
copy panics unless exactly `N` bytes came back). -/
def array_from_ffi_value {σ : Type} (n : Nat) (ctx : FunctionContext σ)
    (s : σ) (arg : Nat) : Except String (List Nat) :=
  match ctx.read_memory s arg n with
  | .error msg => .error msg
  | .ok data =>
    if data.length = n then .ok data
    else .error "source slice length does not match destination slice length"

/-- Host-side `IntoPreallocatedFFIValue for [u8; N]` (impls.rs:329-339): the
destination is a bare `u32` address and the write is unconditional —
`context.write_memory(Pointer::new(allocated), &self_instance)`. -/
def array_into_preallocated_ffi_value {σ : Type} (ctx : FunctionContext σ)
    (s : σ) (self_instance : List Nat) (allocated : Nat) : Except String σ :=
  ctx.write_memory s allocated self_instance

/-- A fixed-size byte array `[u8; n]`. -/
def Bytes (n : Nat) := { l : List Nat // l.length = n }

/-- The pass-by strategies of the `pass_by` module: `Codec<Self>` or
`Inner<Self, [u8; size]>`. -/
inductive PassByStrategy
  | byCodec
  | byInnerBytes (size : Nat)
deriving DecidableEq

/-- `sr25519::Public`, a tuple struct around `[u8; 32]` (used in impls.rs as
`self.0` / `Self(inner)`). -/
structure Sr25519Public where
  bytes : Bytes 32

/-- `sr25519::Signature`, a tuple struct around `[u8; 64]`. -/
structure Sr25519Signature where
  bytes : Bytes 64

/-- `ed25519::Public`, a tuple struct around `[u8; 32]`. -/
structure Ed25519Public where
  bytes : Bytes 32

/-- `ed25519::Signature`, a tuple struct around `[u8; 64]`. -/
structure Ed25519Signature where
  bytes : Bytes 64

/-- `impl PassBy for sr25519::Public` (impls.rs:358-360). -/
def sr25519_public_pass_by : PassByStrategy := .byInnerBytes 32

/-- `impl PassBy for sr25519::Signature` (impls.rs:378-380). -/
def sr25519_signature_pass_by : PassByStrategy := .byInnerBytes 64

/-- `impl PassBy for ed25519::Public` (impls.rs:398-400). -/
def ed25519_public_pass_by : PassByStrategy := .byInnerBytes 32

/-- `impl PassBy for ed25519::Signature` (impls.rs:418-420). -/
def ed25519_signature_pass_by : PassByStrategy := .byInnerBytes 64

/-- `PassByInner::into_inner` for `sr25519::Public` (impls.rs:365-367). -/
def sr25519_public_into_inner (v : Sr25519Public) : Bytes 32 := v.bytes

/-- `PassByInner::from_inner` for `sr25519::Public` (impls.rs:373-375). -/
def sr25519_public_from_inner (inner : Bytes 32) : Sr25519Public := ⟨inner⟩

/-- `PassByInner::into_inner` for `sr25519::Signature` (impls.rs:385-387). -/
def sr25519_signature_into_inner (v : Sr25519Signature) : Bytes 64 := v.bytes

/-- `PassByInner::from_inner` for `sr25519::Signature` (impls.rs:393-395). -/
def sr25519_signature_from_inner (inner : Bytes 64) : Sr25519Signature := ⟨inner⟩

/-- `PassByInner::into_inner` for `ed25519::Public` (impls.rs:405-407). -/
def ed25519_public_into_inner (v : Ed25519Public) : Bytes 32 := v.bytes

/-- `PassByInner::from_inner` for `ed25519::Public` (impls.rs:413-415). -/
def ed25519_public_from_inner (inner : Bytes 32) : Ed25519Public := ⟨inner⟩

/-- `PassByInner::into_inner` for `ed25519::Signature` (impls.rs:425-427). -/
def ed25519_signature_into_inner (v : Ed25519Signature) : Bytes 64 := v.bytes

/-- `PassByInner::from_inner` for `ed25519::Signature` (impls.rs:433-435). -/
def ed25519_signature_from_inner (inner : Bytes 64) : Ed25519Signature := ⟨inner⟩

/-- A minimal concrete memory context for evaluating the converters: the
state is the byte list most recently written, every allocation is placed at
address 100, and a read returns the stored bytes. -/
def testCtx : FunctionContext (List Nat) where
  allocate_memory := fun s _len => .ok (s, 100)
  write_memory := fun _s _ptr bytes => .ok bytes
  read_memory := fun s _ptr _len => .ok s

/-- The element data of the real `u8`: the fast path is taken and both
transmutes are the identity; the codec components are immaterial. -/
def u8Elem : ElemType Nat where
  isU8 := true
  toByte := id
  ofByte := id
  encode := fun l => l
  decode := fun l => some l

/-- Decoder inverse to the two-bytes-per-element encoding of `u16Elem`. -/
def decodeU16 : List Nat → Option (List Nat)
  | [] => some []
  | lo :: hi :: rest => (decodeU16 rest).map (fun l => (lo + 256 * hi) :: l)
  | [_] => none

/-- A multi-byte element type for evaluation: 16-bit values, two bytes per
element (little-endian), standing in for the external codec. -/
def u16Elem : ElemType Nat where
  isU8 := false
  toByte := fun x => x % 256
  ofByte := id
  encode := fun l => l.foldr (fun x acc => x % 256 :: x / 256 % 256 :: acc) []
  decode := decodeU16

theorem toBytesLE_length (n x : Nat) : (toBytesLE n x).length = n := by
  induction n generalizing x with
  | zero => rfl
  | succ n ih => simp [toBytesLE, ih]

theorem toBytesLE_lt (n x : Nat) : ∀ b ∈ toBytesLE n x, b < 256 := by
  induction n generalizing x with
  | zero => simp [toBytesLE]
  | succ n ih =>
    intro b hb
    simp only [toBytesLE, List.mem_cons] at hb
    rcases hb with h | h
    · subst h
      exact Nat.mod_lt _ (by omega)
    · exact ih _ _ h

theorem fromBytesLE_toBytesLE (n x : Nat) (h : x < 256 ^ n) :
    fromBytesLE (toBytesLE n x) = x := by
  induction n generalizing x with
  | zero =>
    simp only [toBytesLE, fromBytesLE]
    simp only [pow_zero] at h
    omega
  | succ n ih =>
    have hx : x / 256 < 256 ^ n := by
      rw [Nat.div_lt_iff_lt_mul (by omega)]
      calc x < 256 ^ (n + 1) := h
        _ = 256 ^ n * 256 := by rw [pow_succ]
    simp only [toBytesLE, fromBytesLE, ih _ hx]
    omega

theorem toBytesLE_fromBytesLE (l : List Nat) (h : ∀ b ∈ l, b < 256) :
    toBytesLE l.length (fromBytesLE l) = l := by
  induction l with
  | nil => rfl
  | cons b bs ih =>
    have hb : b < 256 := h b (by simp)
    have hmod : (b + 256 * fromBytesLE bs) % 256 = b := by omega
    have hdiv : (b + 256 * fromBytesLE bs) / 256 = fromBytesLE bs := by omega
    simp only [List.length_cons, toBytesLE, fromBytesLE, hmod, hdiv]
    rw [ih (fun x hx => h x (by simp [hx]))]

theorem fromBytesLE_lt (l : List Nat) (h : ∀ b ∈ l, b < 256) :
    fromBytesLE l < 256 ^ l.length := by
  induction l with
  | nil => simp [fromBytesLE]
  | cons b bs ih =>
    have hb : b < 256 := h b (by simp)
    have hk := ih (fun x hx => h x (by simp [hx]))
    simp only [fromBytesLE, List.length_cons, pow_succ]
    omega

theorem byteswap_byteswap (n x : Nat) (h : x < 256 ^ n) :
    byteswap n (byteswap n x) = x := by
  unfold byteswap
  have h1 : toBytesLE (toBytesLE n x).reverse.length
      (fromBytesLE (toBytesLE n x).reverse) = (toBytesLE n x).reverse :=
    toBytesLE_fromBytesLE (toBytesLE n x).reverse
      (fun b hb => toBytesLE_lt n x b (List.mem_reverse.mp hb))
  rw [List.length_reverse, toBytesLE_length] at h1
  rw [h1, List.reverse_reverse, fromBytesLE_toBytesLE n x h]

theorem byteswap_lt (n x : Nat) : byteswap n x < 256 ^ n := by
  unfold byteswap
  have h1 := fromBytesLE_lt (toBytesLE n x).reverse
    (fun b hb => toBytesLE_lt n x b (List.mem_reverse.mp hb))
  rwa [List.length_reverse, toBytesLE_length] at h1

theorem from_le_to_le (e : Endian) (n x : Nat) (h : x < 256 ^ n) :
    from_le e n (to_le e n x) = x := by
  cases e with
  | little => rfl
  | big => exact byteswap_byteswap n x h

theorem from_le_lt (e : Endian) (n x : Nat) (h : x < 256 ^ n) :
    from_le e n x < 256 ^ n := by
  cases e with
  | little => exact h
  | big => exact byteswap_lt n x

theorem lor_shiftLeft_eq (ptr len : Nat) (hlen : len < 2 ^ 32) :
    len ||| ptr <<< 32 = 2 ^ 32 * ptr + len := by
  rw [Nat.shiftLeft_eq, Nat.lor_comm, Nat.mul_comm ptr (2 ^ 32),
    ← Nat.mul_add_lt_is_or hlen ptr]

theorem unpack_pack (e : Endian) (ptr len : Nat)
    (hptr : ptr < 2 ^ 32) (hlen : len < 2 ^ 32) :
    pointer_and_len_from_u64 e (pointer_and_len_to_u64 e ptr len) = (ptr, len) := by
  unfold pointer_and_len_to_u64 pointer_and_len_from_u64
  have hadd : len ||| ptr <<< 32 = 2 ^ 32 * ptr + len := lor_shiftLeft_eq ptr len hlen
  have hbound : len ||| ptr <<< 32 < 256 ^ 8 := by
    rw [hadd]
    have h8 : (256 : Nat) ^ 8 = 2 ^ 32 * 2 ^ 32 := by norm_num
    rw [h8]
    omega
  rw [from_le_to_le e 8 _ hbound, hadd]
  simp only [Nat.and_pow_two_sub_one_eq_mod, Nat.shiftRight_eq_div_pow, Prod.mk.injEq]
  constructor
  · omega
  · omega

/-- C1: for every pair of 32-bit `(address, length)` values, on a host of
either byte order, unpacking the packed 64-bit handle returns exactly the
original pair: `pointer_and_len_from_u64 (pointer_and_len_to_u64 ptr len) =
(ptr, len)`, a pure computation with no error condition. -/
theorem handle_round_trip (e : Endian) (ptr len : Nat)
    (hptr : ptr < 2 ^ 32) (hlen : len < 2 ^ 32) :
    pointer_and_len_from_u64 e (pointer_and_len_to_u64 e ptr len) = (ptr, len) :=
  unpack_pack e ptr len hptr hlen

theorem handle_round_trip_witness :
    (7 : Nat) < 2 ^ 32 ∧ (5 : Nat) < 2 ^ 32 ∧
    pointer_and_len_from_u64 .big (pointer_and_len_to_u64 .big 7 5) = (7, 5) :=
  ⟨by decide, by decide, handle_round_trip .big 7 5 (by decide) (by decide)⟩

/-- C2: the packed handle has the exact bit layout length-low/address-high,
normalized to little-endian: packing equals the little-endian normalization
of `len + ptr * 2^32`, and unpacking de-normalizes from little-endian and
then takes the low (length) and high (address) 32-bit halves, for every
representable input. -/
theorem handle_bit_layout (e : Endian) (ptr len val : Nat)
    (hlen : len < 2 ^ 32) (hval : val < 2 ^ 64) :
    pointer_and_len_to_u64 e ptr len = handle_layout_spec e ptr len ∧
    pointer_and_len_from_u64 e val = handle_unpack_spec e val := by
  constructor
  · unfold pointer_and_len_to_u64 handle_layout_spec
    rw [lor_shiftLeft_eq ptr len hlen]
    congr 1
    ring
  · unfold pointer_and_len_from_u64 handle_unpack_spec
    have h8 : (256 : Nat) ^ 8 = 2 ^ 64 := by norm_num
    have hv : from_le e 8 val < 2 ^ 64 := by
      rw [← h8]
      exact from_le_lt e 8 val (by rw [h8]; exact hval)
    simp only [Nat.and_pow_two_sub_one_eq_mod, Nat.shiftRight_eq_div_pow, Prod.mk.injEq]
    constructor
    · rw [Nat.mod_eq_of_lt (by omega)]
    · trivial

theorem handle_bit_layout_witness :
    pointer_and_len_to_u64 .big 3 5 = handle_layout_spec .big 3 5 ∧
    pointer_and_len_from_u64 .big 700 = handle_unpack_spec .big 700 :=
  handle_bit_layout .big 3 5 700 (by decide) (by decide)

/-- C3: for a single-byte-element sequence, host-side into-wire uses the
sequence's bytes directly as the wire payload and from-wire reinterprets the
bytes read back directly as the output sequence; the round trip returns the
original whenever allocate, write and read succeed and the read returns what
was written; and on this path both conversions are independent of the
external codec. -/
theorem vec_u8_zero_copy_round_trip {α σ : Type} (e : Endian) (E : ElemType α)
    (ctx : FunctionContext σ) (s s1 s2 sr : σ) (ptr : Nat) (v : List α)
    (hu8 : E.isU8 = true)
    (hinv : ∀ x, E.ofByte (E.toByte x) = x)
    (hptr : ptr < 2 ^ 32)
    (hlen : v.length < 2 ^ 32)
    (halloc : ctx.allocate_memory s (v.length % 2 ^ 32) = .ok (s1, ptr))
    (hwrite : ctx.write_memory s1 ptr (v.map E.toByte) = .ok s2)
    (hread : ctx.read_memory sr ptr v.length = .ok (v.map E.toByte)) :
    vec_into_ffi_value e E ctx s v = .ok (s2, pointer_and_len_to_u64 e ptr v.length) ∧
    slice_from_ffi_value e E ctx sr (pointer_and_len_to_u64 e ptr v.length) = .ok v ∧
    ∀ (enc : List α → List Nat) (dec : List Nat → Option (List α)),
      vec_into_ffi_value e { E with encode := enc, decode := dec } ctx s v =
        vec_into_ffi_value e E ctx s v ∧
      slice_from_ffi_value e { E with encode := enc, decode := dec } ctx sr
          (pointer_and_len_to_u64 e ptr v.length) =
        slice_from_ffi_value e E ctx sr (pointer_and_len_to_u64 e ptr v.length) := by
  have hup : pointer_and_len_from_u64 e (pointer_and_len_to_u64 e ptr v.length) =
      (ptr, v.length) := unpack_pack e ptr v.length hptr hlen
  have hlen' : v.length < 4294967296 := hlen
  rw [Nat.mod_eq_of_lt hlen] at halloc
  refine ⟨?_, ?_, ?_⟩
  · simp [vec_into_ffi_value, hu8, List.length_map, halloc, hwrite, Nat.mod_eq_of_lt hlen']
  · simp only [slice_from_ffi_value, hup, hread, hu8, if_true]
    congr 1
    rw [List.map_map]
    calc v.map (E.ofByte ∘ E.toByte) = v.map id := List.map_congr_left (fun x _ => hinv x)
      _ = v := List.map_id v
  · intro enc dec
    constructor
    · simp [vec_into_ffi_value, hu8]
    · simp [slice_from_ffi_value, hu8]

theorem vec_u8_zero_copy_round_trip_witness :
    vec_into_ffi_value .little u8Elem testCtx [3] [5, 6] =
      .ok ([5, 6], pointer_and_len_to_u64 .little 100 2) ∧
    slice_from_ffi_value .little u8Elem testCtx [5, 6]
      (pointer_and_len_to_u64 .little 100 2) = .ok [5, 6] := by
  have h := vec_u8_zero_copy_round_trip .little u8Elem testCtx [3] [3] [5, 6] [5, 6]
    100 [5, 6] rfl (fun _ => rfl) (by decide) (by decide) rfl rfl rfl
  exact ⟨h.1, h.2.1⟩

/-- C4: for a sequence whose element type is not single-byte, host-side
into-wire serializes through the external codec, allocates the encoding's
byte length, writes it and packs the handle; from-wire unpacks, reads that
many bytes and decodes; the round trip recovers the original sequence
(including the empty one). -/
theorem vec_codec_round_trip {α σ : Type} (e : Endian) (E : ElemType α)
    (ctx : FunctionContext σ) (s s1 s2 sr : σ) (ptr : Nat) (v : List α)
    (hu8 : E.isU8 = false)
    (hcodec : E.decode (E.encode v) = some v)
    (hptr : ptr < 2 ^ 32)
    (hlen : (E.encode v).length < 2 ^ 32)
    (halloc : ctx.allocate_memory s ((E.encode v).length % 2 ^ 32) = .ok (s1, ptr))
    (hwrite : ctx.write_memory s1 ptr (E.encode v) = .ok s2)
    (hread : ctx.read_memory sr ptr (E.encode v).length = .ok (E.encode v)) :
    vec_into_ffi_value e E ctx s v =
      .ok (s2, pointer_and_len_to_u64 e ptr (E.encode v).length) ∧
    vec_from_ffi_value e E ctx sr
      (pointer_and_len_to_u64 e ptr (E.encode v).length) = .ok v := by
  have hup : pointer_and_len_from_u64 e (pointer_and_len_to_u64 e ptr (E.encode v).length) =
      (ptr, (E.encode v).length) := unpack_pack e ptr (E.encode v).length hptr hlen
  have hlen' : (E.encode v).length < 4294967296 := hlen
  rw [Nat.mod_eq_of_lt hlen] at halloc
  constructor
  · simp [vec_into_ffi_value, hu8, halloc, hwrite, Nat.mod_eq_of_lt hlen']
  · simp [vec_from_ffi_value, slice_from_ffi_value, hup, hread, hu8, hcodec]

theorem vec_codec_round_trip_witness :
    (vec_into_ffi_value .little u16Elem testCtx [9] [258, 5] =
      .ok ([2, 1, 5, 0], pointer_and_len_to_u64 .little 100 4) ∧
     vec_from_ffi_value .little u16Elem testCtx [2, 1, 5, 0]
      (pointer_and_len_to_u64 .little 100 4) = .ok [258, 5]) ∧
    (vec_into_ffi_value .little u16Elem testCtx [9] [] =
      .ok ([], pointer_and_len_to_u64 .little 100 0) ∧
     vec_from_ffi_value .little u16Elem testCtx []
      (pointer_and_len_to_u64 .little 100 0) = .ok []) :=
  ⟨vec_codec_round_trip .little u16Elem testCtx [9] [9] [2, 1, 5, 0] [2, 1, 5, 0]
    100 [258, 5] rfl rfl (by decide) (by decide) rfl rfl rfl,
   vec_codec_round_trip .little u16Elem testCtx [9] [9] [] [] 100 []
    rfl rfl (by decide) (by decide) rfl rfl rfl⟩

/-- C5: host-side preallocated write of a byte slice: if the destination
handle's length field is strictly smaller than the value's length, the
operation fails with the descriptive capacity error (for every memory
context — the context is not consulted); otherwise it is exactly the
context's write of the value at the destination's start address. -/
theorem u8_slice_prealloc_capacity_check {σ : Type} (e : Endian)
    (ctx : FunctionContext σ) (s : σ) (inst : List Nat) (allocated : Nat) :
    ((pointer_and_len_from_u64 e allocated).2 < inst.length →
      u8_slice_into_preallocated_ffi_value e ctx s inst allocated =
        .error (prealloc_error_msg (pointer_and_len_from_u64 e allocated).2
          inst.length)) ∧
    (inst.length ≤ (pointer_and_len_from_u64 e allocated).2 →
      u8_slice_into_preallocated_ffi_value e ctx s inst allocated =
        ctx.write_memory s (pointer_and_len_from_u64 e allocated).1 inst) := by
  constructor
  · intro h
    simp [u8_slice_into_preallocated_ffi_value, h]
  · intro h
    simp [u8_slice_into_preallocated_ffi_value, Nat.not_lt.mpr h]

theorem u8_slice_prealloc_capacity_check_witness :
    u8_slice_into_preallocated_ffi_value .little testCtx [0] [1, 2, 3]
      (pointer_and_len_to_u64 .little 100 2) = .error (prealloc_error_msg 2 3) ∧
    u8_slice_into_preallocated_ffi_value .little testCtx [0] [1, 2, 3]
      (pointer_and_len_to_u64 .little 100 3) = .ok [1, 2, 3] :=
  ⟨(u8_slice_prealloc_capacity_check .little testCtx [0] [1, 2, 3]
      (pointer_and_len_to_u64 .little 100 2)).1 (by decide),
   (u8_slice_prealloc_capacity_check .little testCtx [0] [1, 2, 3]
      (pointer_and_len_to_u64 .little 100 3)).2 (by decide)⟩

/-- C6: for `[u8; N]` with `N` in `1..=64` the wire primitive is a raw
32-bit address; host-side into-wire allocates `N` bytes, writes the array
and returns the address, from-wire reads `N` bytes at the address; the
round trip is the identity whenever the context operations succeed and the
read returns what was written. -/
theorem array_round_trip {σ : Type} (n : Nat) (ctx : FunctionContext σ)
    (s s1 s2 sr : σ) (addr : Nat) (arr : List Nat)
    (hn : 1 ≤ n ∧ n ≤ 64) (harr : arr.length = n)
    (halloc : ctx.allocate_memory s n = .ok (s1, addr))
    (hwrite : ctx.write_memory s1 addr arr = .ok s2)
    (hread : ctx.read_memory sr addr n = .ok arr) :
    arrayFFIType n = WireTy.u32 ∧
    array_into_ffi_value n ctx s arr = .ok (s2, addr) ∧
    array_from_ffi_value n ctx sr addr = .ok arr := by
  refine ⟨rfl, ?_, ?_⟩
  · simp [array_into_ffi_value, halloc, hwrite]
  · simp [array_from_ffi_value, hread, harr]

theorem array_round_trip_witness :
    array_into_ffi_value 32 testCtx [] (List.range 32) = .ok (List.range 32, 100) ∧
    array_from_ffi_value 32 testCtx (List.range 32) 100 = .ok (List.range 32) := by
  have h := array_round_trip 32 testCtx [] [] (List.range 32) (List.range 32) 100
    (List.range 32) (by decide) (by decide) rfl rfl rfl
  exact ⟨h.2.1, h.2.2⟩

/-- C7: for each of the eight integer types the wire type has the same width
and signedness; conversion is endianness normalization only (the host-side
functions ignore the memory context and always return `Ok`); and the
round trip is the identity on every representable bit pattern, on both the
guest and the host side. -/
theorem primitive_round_trip {σ : Type} (e : Endian) (t : WireTy) (x : Nat)
    (ctx : FunctionContext σ) (s : σ) (hx : x < 2 ^ t.width) :
    (primFFIType t).width = t.width ∧
    (primFFIType t).signed = t.signed ∧
    from_ffi_value_prim e t (into_ffi_value_prim e t x) = x ∧
    host_into_ffi_value_prim e t ctx s x = .ok (into_ffi_value_prim e t x) ∧
    host_from_ffi_value_prim e t ctx s (into_ffi_value_prim e t x) = .ok x := by
  have hw : 2 ^ t.width = 256 ^ (t.width / 8) := by cases t <;> rfl
  have hrt : from_le e (t.width / 8) (to_le e (t.width / 8) x) = x :=
    from_le_to_le e _ x (by rw [← hw]; exact hx)
  refine ⟨?_, ?_, hrt, rfl, ?_⟩
  · cases t <;> rfl
  · cases t <;> rfl
  · simp only [host_from_ffi_value_prim, into_ffi_value_prim, hrt]

theorem primitive_round_trip_witness :
    (primFFIType WireTy.u64).width = WireTy.u64.width ∧
    (primFFIType WireTy.u64).signed = WireTy.u64.signed ∧
    from_ffi_value_prim .big .u64 (into_ffi_value_prim .big .u64 (2 ^ 64 - 1)) =
      2 ^ 64 - 1 ∧
    host_into_ffi_value_prim .big .u64 testCtx [] (2 ^ 64 - 1) =
      .ok (into_ffi_value_prim .big .u64 (2 ^ 64 - 1)) ∧
    host_from_ffi_value_prim .big .u64 testCtx []
      (into_ffi_value_prim .big .u64 (2 ^ 64 - 1)) = .ok (2 ^ 64 - 1) :=
  primitive_round_trip .big .u64 (2 ^ 64 - 1) testCtx [] (by decide)

/-- C8: booleans cross the boundary as an 8-bit integer; into-wire maps
`true` to `1` and `false` to `0` on both sides (the host side returning
`Ok`), and the round trip returns the original boolean for both values. -/
theorem bool_round_trip {σ : Type} (ctx : FunctionContext σ) (s : σ) (b : Bool) :
    boolFFIType = WireTy.u8 ∧
    bool_into_ffi_value true = 1 ∧
    bool_into_ffi_value false = 0 ∧
    host_bool_into_ffi_value ctx s b = .ok (bool_into_ffi_value b) ∧
    bool_from_ffi_value (bool_into_ffi_value b) = b ∧
    host_bool_from_ffi_value ctx s (bool_into_ffi_value b) = .ok b := by
  refine ⟨rfl, rfl, rfl, rfl, ?_, ?_⟩
  · cases b <;> rfl
  · cases b <;> rfl

/-- C9: each of the four designated cryptographic value types passes by
inner bytes over its sole fixed-size inner array (`[u8; 32]` for public
keys, `[u8; 64]` for signatures), and reconstructing from the extracted
inner array is the identity. -/
theorem pass_by_inner_round_trip :
    sr25519_public_pass_by = PassByStrategy.byInnerBytes 32 ∧
    sr25519_signature_pass_by = PassByStrategy.byInnerBytes 64 ∧
    ed25519_public_pass_by = PassByStrategy.byInnerBytes 32 ∧
    ed25519_signature_pass_by = PassByStrategy.byInnerBytes 64 ∧
    (∀ v : Sr25519Public, sr25519_public_from_inner (sr25519_public_into_inner v) = v) ∧
    (∀ v : Sr25519Signature,
      sr25519_signature_from_inner (sr25519_signature_into_inner v) = v) ∧
    (∀ v : Ed25519Public, ed25519_public_from_inner (ed25519_public_into_inner v) = v) ∧
    (∀ v : Ed25519Signature,
      ed25519_signature_from_inner (ed25519_signature_into_inner v) = v) :=
  ⟨rfl, rfl, rfl, rfl, fun _ => rfl, fun _ => rfl, fun _ => rfl, fun _ => rfl⟩

/-- C10: host-side preallocated write of `[u8; N]` performs no capacity
verification: it takes a bare address, is exactly the context's write of all
`N` bytes there, and succeeds whenever that write succeeds — it can never
produce a capacity error of its own. -/
theorem array_prealloc_no_capacity_check {σ : Type} (n : Nat)
    (ctx : FunctionContext σ) (s : σ) (arr : List Nat) (allocated : Nat)
    (hn : 1 ≤ n ∧ n ≤ 64) (harr : arr.length = n) :
    array_into_preallocated_ffi_value ctx s arr allocated =
      ctx.write_memory s allocated arr ∧
    ∀ s', ctx.write_memory s allocated arr = .ok s' →
      array_into_preallocated_ffi_value ctx s arr allocated = .ok s' := by
  refine ⟨rfl, ?_⟩
  intro s' h
  exact h

theorem array_prealloc_no_capacity_check_witness :
    array_into_preallocated_ffi_value testCtx [] (List.range 32) 7 =
      .ok (List.range 32) := by
  have h := array_prealloc_no_capacity_check 32 testCtx [] (List.range 32) 7
    (by decide) (by decide)
  exact h.2 (List.range 32) rfl
